import Mathlib

/-!
Shallow embedding of the batching/queueing pipeline of
`examples/image_matching.py` (function `extract_deep_features`, lines 61-103)
together with proofs of the specification's claims about it.

Modelling conventions:
* an input "patch" collection is a `List α` (one element per patch, axis 0 of
  the numpy array `all_patches`);
* the opaque inference call `sess.run` is a function
  `g : List α → Option (List β)`; `none` models the call raising an exception,
  `some feats` models it returning one feature per patch of the batch;
* Python integers are `Int`; `%` on Python ints is `Int.fmod`
  (remainder with the sign of the divisor) and `//`/`np.floor` of the float
  quotient is `Int.fdiv` (floor division), while `int(...)` applied to a float
  quotient truncates toward zero, which on the branch where the source uses it
  is `Int.tdiv`;
* the `queue.Queue` FIFO with a single producer and a single consumer is
  modelled by the list of enqueued elements processed in order; the Python
  value `None` used as the poison pill is `Option.none`;
* `np.concatenate(xs, axis=0)` is `List.flatten`, except that numpy raises
  `ValueError` when `xs` is the empty list, which the model makes explicit
  as the outcome `concatValueError`.
-/

namespace ImageMatching

/-- Python slice `xs[lo:hi]` for nonnegative bounds (out-of-range bounds are
clamped, exactly as `List.drop`/`List.take` clamp). -/
def pySlice {α : Type} (xs : List α) (lo hi : Nat) : List α :=
  (xs.drop lo).take (hi - lo)

/-- Python slice `xs[lo:]` for a nonnegative bound. -/
def pySliceFrom {α : Type} (xs : List α) (lo : Nat) : List α :=
  xs.drop lo

/-- Lines 63-66 of the source:

    if num_patch % FLAGS.batch_size > 0:
        loop_num = int(np.floor(float(num_patch) / float(FLAGS.batch_size)))
    else:
        loop_num = int(num_patch / FLAGS.batch_size - 1)

Python `%` on ints is `Int.fmod`; `np.floor` of the float quotient is floor
division, `Int.fdiv`.  In the `else` branch `int(...)` truncates the float
`num_patch / batch_size - 1` toward zero; since in that branch either the
division is exact (whenever `bs > 0`) or both quotients are at most `-1`
(whenever `bs < 0`), this equals `Int.tdiv numPatch bs - 1`.
Requires `bs ≠ 0` (with `bs = 0` line 63 raises `ZeroDivisionError`,
which `extract` below models before ever using this value). -/
def loopNum (numPatch bs : Int) : Int :=
  if Int.fmod numPatch bs > 0 then Int.fdiv numPatch bs
  else Int.tdiv numPatch bs - 1

/-- Lines 87-91 of the source: the real batches pushed by the enqueue loop

    for i in range(loop_num + 1):
        if i < loop_num:
            patch_queue.put(all_patches[i * FLAGS.batch_size: (i + 1) * FLAGS.batch_size])
        else:
            patch_queue.put(all_patches[i * FLAGS.batch_size:])

`range` of a nonpositive number is empty, which `Int.toNat` captures.  The
loop body runs only for `0 ≤ i ≤ loopNum`, which (proved below) forces
`bs ≥ 1`, so the slice bounds `i*bs` and `(i+1)*bs` are the nonnegative
integers obtained by `Int.toNat`. -/
def enqueuedBatches {α : Type} (items : List α) (bs : Int) : List (List α) :=
  (List.range (loopNum (items.length : Int) bs + 1).toNat).map fun (i : Nat) =>
    if ((i : Int)) < loopNum (items.length : Int) bs then
      pySlice items (((i : Int)) * bs).toNat ((((i : Int)) + 1) * bs).toNat
    else
      pySliceFrom items (((i : Int)) * bs).toNat

/-- Lines 87-93: the full sequence of elements pushed onto `patch_queue`,
in order: every real batch (wrapped in `some`, a numpy array is never the
Python value `None`), then the poison pill `patch_queue.put(None)`. -/
def enqueueSeq {α : Type} (items : List α) (bs : Int) : List (Option (List α)) :=
  (enqueuedBatches items bs).map some ++ [none]

/-- How the worker thread of lines 68-76 can stop running. -/
inductive WorkerExit : Type
  /-- `patch_data is None` was observed: the function returned normally. -/
  | sentinelReturn : WorkerExit
  /-- `sess.run` raised: the uncaught exception kills the daemon thread. -/
  | inferenceCrash : WorkerExit
  /-- the queue was exhausted with no sentinel seen: `patch_queue.get()`
  blocks forever. -/
  | blocked : WorkerExit
deriving DecidableEq, Repr

/-- Lines 68-76 of the source, the worker thread:

    while True:
        patch_data = patch_queue.get()
        if patch_data is None:
            return
        feat = sess.run(...)
        all_feat.append(feat)
        patch_queue.task_done()

run over the ordered sequence of queued elements (single producer, single
consumer, FIFO queue).  Returns the final accumulator `all_feat`, how the
thread stopped, and the queue elements it never consumed. -/
def workerRun {α β : Type} (g : List α → Option (List β)) :
    List (Option (List α)) → List (List β) →
      List (List β) × WorkerExit × List (Option (List α))
  | [], acc => (acc, WorkerExit.blocked, [])
  | none :: rest, acc => (acc, WorkerExit.sentinelReturn, rest)
  | some bl :: rest, acc =>
      match g bl with
      | some feat => workerRun g rest (acc ++ [feat])
      | none => (acc, WorkerExit.inferenceCrash, rest)

/-- Observable outcome of one call of `extract_deep_features`, restricted to
the batching pipeline (lines 61-100). -/
inductive ExtractOutcome (β : Type) : Type
  /-- the call returns the concatenated feature list of line 100. -/
  | ok : List β → ExtractOutcome β
  /-- line 63 `num_patch % FLAGS.batch_size` raises with `batch_size = 0`. -/
  | zeroDivisionError : ExtractOutcome β
  /-- line 100 `np.concatenate(all_feat, axis=0)` raises `ValueError`
  because `all_feat` is the empty list. -/
  | concatValueError : ExtractOutcome β
  /-- line 95 `worker_thread.join()` never returns. -/
  | hang : ExtractOutcome β
deriving DecidableEq, Repr

/-- Line 79 `patch_queue = Queue()`: the queue is created with the default
`maxsize = 0`, i.e. unbounded. -/
def queueMaxsize : Nat := 0

/-- Modelled from the `queue.Queue.put` semantics of the Python standard
library (the queue itself is not part of this repository): a blocking `put`
suspends the caller exactly when the queue is bounded (`0 < maxsize`) and
currently full (`maxsize ≤ qlen`). -/
def putSuspends (maxsize qlen : Nat) : Bool :=
  decide (0 < maxsize) && decide (maxsize ≤ qlen)

/-- Whether line 79 (queue creation, immediately followed by worker-thread
creation and start, lines 80-82) is reached: the only statement before it
that can raise is the modulo of line 63, which raises exactly when
`batch_size = 0`. -/
def queueCreated (bs : Int) : Bool := bs != 0

/-- Lines 61-100 of the source as one function: compute `loop_num`
(raising `ZeroDivisionError` when `batch_size = 0`), create the queue and
start the single worker, enqueue all batches and then the poison pill, join
(the join returns whether the worker returned normally or was killed by an
uncaught exception; it would never return only if the worker stayed blocked),
then concatenate the accumulator (numpy raises `ValueError` on an empty
list of arrays).  Quantization (line 102) is elementwise and is omitted:
it does not change the length or order of the result. -/
def extract {α β : Type} (items : List α) (bs : Int)
    (g : List α → Option (List β)) : ExtractOutcome β :=
  if bs = 0 then ExtractOutcome.zeroDivisionError
  else
    let res := workerRun g (enqueueSeq items bs) []
    if res.2.1 = WorkerExit.blocked then ExtractOutcome.hang
    else if res.1.isEmpty then ExtractOutcome.concatValueError
    else ExtractOutcome.ok res.1.flatten

/-- Number of real batches the enqueue loop pushes, at the `Nat` level:
`loopNum + 1` (clamped at zero). -/
def numBatches (n b : Nat) : Nat :=
  if 0 < n % b then n / b + 1 else n / b

/-- Modelled from the spec: the BatchSplitter contract's batch count,
"produce `ceil(N / batch_size)` batches", written as ceiling division. -/
def ceilDiv (n b : Nat) : Nat := (n + b - 1) / b

/-- Worst-case suspension record of the producer: the value of
`putSuspends` at each of the producer's pushes, assuming the worker has
consumed nothing yet (so the queue length before the `i`-th push is `i`). -/
def producerSuspensions {α : Type} (items : List α) (bs : Int) : List Bool :=
  (List.range (enqueueSeq items bs).length).map fun i =>
    putSuspends queueMaxsize i

/-! ### Arithmetic facts about the loop-count computation -/

lemma loopNum_coe (n b : Nat) :
    loopNum (n : Int) (b : Int) = (numBatches n b : Int) - 1 := by
  unfold loopNum numBatches
  rw [← Int.ofNat_fmod, ← Int.ofNat_fdiv, ← Int.ofNat_tdiv]
  by_cases h : 0 < n % b
  · rw [if_pos h, if_pos (by exact_mod_cast h : ((0 : Int) < ((n % b : Nat) : Int)))]
    push_cast
    ring
  · rw [if_neg h, if_neg (by exact_mod_cast h : ¬ ((0 : Int) < ((n % b : Nat) : Int)))]

lemma numBatches_zero (b : Nat) : numBatches 0 b = 0 := by
  simp [numBatches]

lemma numBatches_pos (n b : Nat) (hn : 1 ≤ n) : 1 ≤ numBatches n b := by
  unfold numBatches
  by_cases h : 0 < n % b
  · rw [if_pos h]
    exact Nat.le_add_left 1 (n / b)
  · rw [if_neg h]
    have hb : 0 < b := by
      rcases Nat.eq_zero_or_pos b with rfl | hb
      · rw [Nat.mod_zero] at h
        exact absurd hn h
      · exact hb
    have hble : b ≤ n := by
      by_contra hlt
      rw [Nat.mod_eq_of_lt (Nat.lt_of_not_le hlt)] at h
      exact h hn
    exact Nat.div_pos hble hb

lemma numBatches_mul_ge (n b : Nat) (hb : 1 ≤ b) : n ≤ numBatches n b * b := by
  have hqr : b * (n / b) + n % b = n := Nat.div_add_mod n b
  have hr : n % b < b := Nat.mod_lt n hb
  unfold numBatches
  by_cases h : 0 < n % b
  · rw [if_pos h]
    calc n = b * (n / b) + n % b := hqr.symm
    _ ≤ b * (n / b) + b := Nat.add_le_add_left (Nat.le_of_lt hr) _
    _ = (n / b + 1) * b := by ring
  · rw [if_neg h]
    have h0 : n % b = 0 := Nat.eq_zero_of_not_pos h
    have hne : n = (n / b) * b := by
      calc n = b * (n / b) + n % b := hqr.symm
      _ = (n / b) * b := by rw [h0]; ring
    exact Nat.le_of_eq hne

lemma numBatches_pred_mul_le (n b : Nat) (_hb : 1 ≤ b) :
    (numBatches n b - 1) * b ≤ n := by
  have hqr : b * (n / b) + n % b = n := Nat.div_add_mod n b
  unfold numBatches
  by_cases h : 0 < n % b
  · rw [if_pos h, Nat.add_sub_cancel]
    calc (n / b) * b = b * (n / b) := by ring
    _ ≤ n := Nat.le.intro hqr
  · rw [if_neg h]
    calc (n / b - 1) * b ≤ (n / b) * b := Nat.mul_le_mul_right b (Nat.sub_le _ _)
    _ = b * (n / b) := by ring
    _ ≤ n := Nat.le.intro hqr

lemma numBatches_eq_ceilDiv (n b : Nat) (hb : 1 ≤ b) :
    numBatches n b = ceilDiv n b := by
  have hqr : b * (n / b) + n % b = n := Nat.div_add_mod n b
  have hr : n % b < b := Nat.mod_lt n hb
  unfold numBatches ceilDiv
  have hx1 : (n / b + 1) * b = b * (n / b) + b := by ring
  have hx2 : (n / b + 1 + 1) * b = b * (n / b) + b + b := by ring
  have hx3 : (n / b) * b = b * (n / b) := by ring
  by_cases h : 0 < n % b
  · rw [if_pos h]
    refine (Nat.div_eq_of_lt_le ?_ ?_).symm
    · rw [hx1]
      set A := b * (n / b) with hA
      set B := n % b with hB
      omega
    · rw [hx2]
      set A := b * (n / b) with hA
      set B := n % b with hB
      omega
  · rw [if_neg h]
    refine (Nat.div_eq_of_lt_le ?_ ?_).symm
    · rw [hx3]
      set A := b * (n / b) with hA
      set B := n % b with hB
      omega
    · rw [hx1]
      set A := b * (n / b) with hA
      set B := n % b with hB
      omega

/-- For a negative batch size, `num_patch % batch_size` is never positive in
Python (the remainder carries the divisor's sign), so the `else` branch runs
and `loop_num` is at most `-1`: the enqueue loop `range(loop_num + 1)` is
empty. -/
lemma loopNum_neg (n : Nat) (bs : Int) (hbs : bs < 0) :
    loopNum (n : Int) bs ≤ -1 := by
  cases bs with
  | ofNat m => exact absurd hbs (Int.not_lt.mpr (Int.ofNat_zero_le m))
  | negSucc k =>
    unfold loopNum
    rw [if_neg]
    · have htd : Int.tdiv (n : Int) (Int.negSucc k) ≤ 0 := by
        cases n with
        | zero => simp [Int.tdiv]
        | succ m =>
          show -(Int.ofNat ((m + 1) / (k + 1))) ≤ 0
          have : (0 : Int) ≤ Int.ofNat ((m + 1) / (k + 1)) := Int.ofNat_zero_le _
          omega
      omega
    · cases n with
      | zero =>
        show ¬ ((0 : Int) < Int.fmod 0 (Int.negSucc k))
        rw [Int.zero_fmod]
        omega
      | succ m =>
        show ¬ ((0 : Int) < Int.subNatNat (m % (k + 1)) k)
        rw [Int.subNatNat_eq_coe]
        have : m % (k + 1) < k + 1 := Nat.mod_lt m (by omega)
        omega

/-! ### Normal form of the enqueued batches for a positive batch size -/

lemma take_add_split {α : Type} : ∀ (b k : Nat) (xs : List α),
    xs.take (b + k) = xs.take b ++ (xs.drop b).take k := by
  intro b
  induction b with
  | zero => intro k xs; simp
  | succ m ih =>
    intro k xs
    cases xs with
    | nil => simp
    | cons x xs =>
      simp only [Nat.succ_add, List.take_succ_cons, List.drop_succ_cons,
        List.cons_append, List.cons.injEq, true_and]
      exact ih k xs

lemma enqueuedBatches_eq {α : Type} (items : List α) (b : Nat) (hb : 1 ≤ b) :
    enqueuedBatches items (b : Int)
      = (List.range (numBatches items.length b)).map
          (fun i => (items.drop (i * b)).take b) := by
  unfold enqueuedBatches
  simp only [loopNum_coe]
  have hK : ((numBatches items.length b : Int) - 1 + 1).toNat
      = numBatches items.length b := by omega
  rw [hK]
  apply List.map_congr_left
  intro i hi
  rw [List.mem_range] at hi
  have e1 : (((i : Nat) : Int) * ((b : Nat) : Int)).toNat = i * b := by
    rw [← Int.natCast_mul, Int.toNat_ofNat]
  by_cases hlt : i + 1 < numBatches items.length b
  · rw [if_pos (by omega)]
    unfold pySlice
    have e2 : ((((i : Nat) : Int) + 1) * ((b : Nat) : Int)).toNat = (i + 1) * b := by
      rw [show (((i : Nat) : Int) + 1) = (((i + 1 : Nat) : Int)) from by push_cast; ring,
        ← Int.natCast_mul, Int.toNat_ofNat]
    rw [e1, e2]
    have e3 : (i + 1) * b = i * b + b := by ring
    rw [e3]
    congr 1
    omega
  · rw [if_neg (by omega)]
    unfold pySliceFrom
    rw [e1]
    have hi1 : i + 1 = numBatches items.length b := by omega
    have hKb : numBatches items.length b * b = i * b + b := by rw [← hi1]; ring
    have h1 : items.length ≤ numBatches items.length b * b :=
      numBatches_mul_ge items.length b hb
    refine (List.take_of_length_le ?_).symm
    rw [List.length_drop]
    set X := i * b with hX
    omega

lemma chunks_flatten {α : Type} (b : Nat) :
    ∀ (K : Nat) (xs : List α),
      ((List.range K).map (fun i => (xs.drop (i * b)).take b)).flatten
        = xs.take (K * b) := by
  intro K
  induction K with
  | zero => intro xs; simp
  | succ k ih =>
    intro xs
    rw [List.range_succ_eq_map, List.map_cons, List.map_map, List.flatten_cons]
    have hmap : (List.range k).map ((fun i => (xs.drop (i * b)).take b) ∘ Nat.succ)
        = (List.range k).map (fun i => ((xs.drop b).drop (i * b)).take b) := by
      apply List.map_congr_left
      intro i _
      simp only [Function.comp_apply]
      rw [show Nat.succ i * b = b + i * b from by rw [Nat.succ_mul]; exact Nat.add_comm _ _,
        ← List.drop_drop]
    rw [hmap, ih (xs.drop b)]
    simp only [Nat.zero_mul, List.drop_zero]
    rw [show (k + 1) * b = b + k * b from by ring, take_add_split]

lemma enqueuedBatches_length {α : Type} (items : List α) (b : Nat) (hb : 1 ≤ b) :
    (enqueuedBatches items (b : Int)).length = numBatches items.length b := by
  rw [enqueuedBatches_eq items b hb]
  simp

lemma enqueuedBatches_flatten {α : Type} (items : List α) (b : Nat) (hb : 1 ≤ b) :
    (enqueuedBatches items (b : Int)).flatten = items := by
  rw [enqueuedBatches_eq items b hb, chunks_flatten]
  exact List.take_of_length_le (numBatches_mul_ge items.length b hb)

/-! ### Behavior of the worker on the queue contents -/

lemma workerRun_some {α β : Type} (g : List α → Option (List β)) (f : List α → List β) :
    ∀ (L : List (List α)) (rest : List (Option (List α))) (acc : List (List β)),
      (∀ x ∈ L, g x = some (f x)) →
      workerRun g (L.map some ++ rest) acc = workerRun g rest (acc ++ L.map f) := by
  intro L
  induction L with
  | nil => intro rest acc _; simp
  | cons x xs ih =>
    intro rest acc h
    have hx : g x = some (f x) := h x (List.mem_cons_self x xs)
    simp only [List.map_cons, List.cons_append]
    rw [show workerRun g (some x :: (xs.map some ++ rest)) acc
        = workerRun g (xs.map some ++ rest) (acc ++ [f x]) from by
      simp [workerRun, hx]]
    rw [ih rest (acc ++ [f x]) (fun y hy => h y (List.mem_cons_of_mem x hy))]
    simp

lemma workerRun_sentinel {α β : Type} (g : List α → Option (List β))
    (rest : List (Option (List α))) (acc : List (List β)) :
    workerRun g (none :: rest) acc = (acc, WorkerExit.sentinelReturn, rest) := rfl

lemma workerRun_crash {α β : Type} (g : List α → Option (List β)) (bl : List α)
    (rest : List (Option (List α))) (acc : List (List β)) (h : g bl = none) :
    workerRun g (some bl :: rest) acc = (acc, WorkerExit.inferenceCrash, rest) := by
  simp [workerRun, h]

lemma full_batch_size (n b i : Nat) (hb : 1 ≤ b) (hi : i + 1 < numBatches n b) :
    min b (n - i * b) = b := by
  have h3 := numBatches_pred_mul_le n b hb
  have h2 : (i + 1) * b ≤ (numBatches n b - 1) * b :=
    Nat.mul_le_mul_right b (by omega)
  obtain ⟨Z, hZ⟩ : ∃ z, (i + 1) * b = z := ⟨_, rfl⟩
  obtain ⟨X, hX⟩ : ∃ x, i * b = x := ⟨_, rfl⟩
  obtain ⟨Y, hY⟩ : ∃ y, (numBatches n b - 1) * b = y := ⟨_, rfl⟩
  have h4 : Z = X + b := by rw [← hZ, ← hX]; ring
  rw [hZ, hY] at h2
  rw [hY] at h3
  rw [hX]
  exact Nat.min_eq_left (by omega)

lemma last_batch_size (n b : Nat) (hb : 1 ≤ b) (hn : 1 ≤ n) :
    n - (numBatches n b - 1) * b = if n % b = 0 then b else n % b := by
  have hqr : b * (n / b) + n % b = n := Nat.div_add_mod n b
  have hrlt : n % b < b := Nat.mod_lt n hb
  by_cases h : 0 < n % b
  · rw [if_neg (by omega)]
    unfold numBatches
    rw [if_pos h, Nat.add_sub_cancel]
    obtain ⟨Q, hQ⟩ : ∃ q, n / b = q := ⟨_, rfl⟩
    rw [hQ] at hqr ⊢
    obtain ⟨A, hA⟩ : ∃ a, Q * b = a := ⟨_, rfl⟩
    rw [hA]
    rw [show b * Q = Q * b from Nat.mul_comm b Q, hA] at hqr
    omega
  · rw [if_pos (by omega)]
    have hpos : 1 ≤ n / b := by
      have h1 := numBatches_pos n b hn
      unfold numBatches at h1
      rw [if_neg h] at h1
      exact h1
    unfold numBatches
    rw [if_neg h]
    obtain ⟨Q, hQ⟩ : ∃ q, n / b = q := ⟨_, rfl⟩
    rw [hQ] at hqr hpos ⊢
    obtain ⟨P, hP⟩ : ∃ p, (Q - 1) * b = p := ⟨_, rfl⟩
    rw [hP]
    have hQb : Q * b = P + b := by
      rw [← hP]
      calc Q * b = (Q - 1 + 1) * b := by rw [Nat.sub_add_cancel hpos]
      _ = (Q - 1) * b + b := by ring
    rw [show b * Q = Q * b from Nat.mul_comm b Q, hQb] at hqr
    omega

lemma isEmpty_map {α β : Type} (f : α → β) (l : List α) :
    (l.map f).isEmpty = l.isEmpty := by
  cases l <;> rfl

lemma pySlice_is_slice {α : Type} (xs : List α) (lo hi : Nat) :
    ∃ pre post, pre ++ pySlice xs lo hi ++ post = xs := by
  refine ⟨xs.take lo, (xs.drop lo).drop (hi - lo), ?_⟩
  unfold pySlice
  rw [List.append_assoc, List.take_append_drop, List.take_append_drop]

lemma pySliceFrom_is_slice {α : Type} (xs : List α) (lo : Nat) :
    ∃ pre post, pre ++ pySliceFrom xs lo ++ post = xs := by
  refine ⟨xs.take lo, [], ?_⟩
  unfold pySliceFrom
  rw [List.append_nil, List.take_append_drop]

/-- Full pipeline run when inference succeeds on every enqueued batch. -/
lemma workerRun_pipeline {α β : Type} (items : List α) (bs : Int)
    (g : List α → Option (List β)) (f : List α → List β)
    (hg : ∀ x ∈ enqueuedBatches items bs, g x = some (f x)) :
    workerRun g (enqueueSeq items bs) []
      = ((enqueuedBatches items bs).map f, WorkerExit.sentinelReturn, []) := by
  unfold enqueueSeq
  rw [workerRun_some g f _ [none] [] hg, workerRun_sentinel]
  simp

/-- Observable outcome of the whole call when inference succeeds on every
enqueued batch: `ValueError` at the final concatenation if no batch exists,
the ordered concatenation of the per-batch results otherwise. -/
lemma extract_of_success {α β : Type} (items : List α) (bs : Int)
    (g : List α → Option (List β)) (f : List α → List β) (hbs : bs ≠ 0)
    (hg : ∀ x ∈ enqueuedBatches items bs, g x = some (f x)) :
    extract items bs g
      = if (enqueuedBatches items bs).isEmpty then ExtractOutcome.concatValueError
        else ExtractOutcome.ok ((enqueuedBatches items bs).map f).flatten := by
  unfold extract
  rw [if_neg hbs]
  simp only [workerRun_pipeline items bs g f hg]
  rw [if_neg (by simp : ¬ (WorkerExit.sentinelReturn = WorkerExit.blocked))]
  rw [isEmpty_map]

/-! ### The claims -/

/-- C2: for every input length N ≥ 0 and every batch_size ≥ 1, the enqueue
loop produces exactly ceil(N / batch_size) batches; every batch except
possibly the last has size batch_size; the last batch (when the input is
nonempty) has size N mod batch_size, or batch_size when N is an exact
multiple; and concatenating the batches in order yields the input itself,
so the batches are contiguous, in-order, non-overlapping and lossless. -/
theorem c2_batch_splitting {α : Type} (items : List α) (b : Nat) (hb : 1 ≤ b) :
    (enqueuedBatches items ((b : Nat) : Int)).length = ceilDiv items.length b ∧
    (enqueuedBatches items ((b : Nat) : Int)).flatten = items ∧
    (∀ i : Nat, ∀ h : i + 1 < (enqueuedBatches items ((b : Nat) : Int)).length,
      ((enqueuedBatches items ((b : Nat) : Int)).get ⟨i, Nat.lt_of_succ_lt h⟩).length = b) ∧
    (items ≠ [] → ∃ lastB : List α,
      (enqueuedBatches items ((b : Nat) : Int)).getLast? = some lastB ∧
      lastB.length = if items.length % b = 0 then b else items.length % b) := by
  have heq := enqueuedBatches_eq items b hb
  have hlen := enqueuedBatches_length items b hb
  refine ⟨?_, enqueuedBatches_flatten items b hb, ?_, ?_⟩
  · rw [hlen, numBatches_eq_ceilDiv items.length b hb]
  · intro i h
    rw [hlen] at h
    simp only [List.get_eq_getElem, heq, List.getElem_map, List.getElem_range,
      List.length_take, List.length_drop]
    exact full_batch_size items.length b i hb h
  · intro hne
    have hn : 1 ≤ items.length := List.length_pos.mpr hne
    have hKpos : 1 ≤ numBatches items.length b := numBatches_pos items.length b hn
    obtain ⟨k, hk⟩ : ∃ k, numBatches items.length b = k + 1 :=
      ⟨numBatches items.length b - 1, by omega⟩
    refine ⟨(items.drop (k * b)).take b, ?_, ?_⟩
    · rw [heq, hk, List.range_succ, List.map_append, List.map_cons, List.map_nil,
        List.getLast?_concat]
    · rw [List.length_take, List.length_drop]
      have hlast := last_batch_size items.length b hb hn
      rw [hk] at hlast
      simp only [Nat.add_sub_cancel] at hlast
      rw [← hlast]
      refine Nat.min_eq_right ?_
      have h1 := numBatches_mul_ge items.length b hb
      rw [hk] at h1
      obtain ⟨X, hX⟩ : ∃ x, k * b = x := ⟨_, rfl⟩
      have h2 : (k + 1) * b = X + b := by rw [← hX]; ring
      rw [h2] at h1
      rw [hX]
      omega

/-- Witness for C2 at items = range 10 and batch_size = 4. -/
theorem c2_batch_splitting_witness :
    (enqueuedBatches (List.range 10) ((4 : Nat) : Int)).length
      = ceilDiv (List.range 10).length 4 ∧
    (enqueuedBatches (List.range 10) ((4 : Nat) : Int)).flatten = List.range 10 ∧
    (∀ i : Nat, ∀ h : i + 1 < (enqueuedBatches (List.range 10) ((4 : Nat) : Int)).length,
      ((enqueuedBatches (List.range 10) ((4 : Nat) : Int)).get
        ⟨i, Nat.lt_of_succ_lt h⟩).length = 4) ∧
    (List.range 10 ≠ [] → ∃ lastB : List Nat,
      (enqueuedBatches (List.range 10) ((4 : Nat) : Int)).getLast? = some lastB ∧
      lastB.length
        = if (List.range 10).length % 4 = 0 then 4 else (List.range 10).length % 4) :=
  c2_batch_splitting (List.range 10) 4 (by decide)

/-- C8: the source's two-branch loop_num computation (floor division when
N mod batch_size > 0, else N / batch_size - 1) equals ceil(N / batch_size) - 1
for every N ≥ 0 and batch_size ≥ 1, so the produced batch count loop_num + 1
matches the ceiling-division BatchSplitter specification; concretely, 5 items
with batch_size 5 give exactly one batch of size 5, and 10 items with
batch_size 4 give batches of sizes [4, 4, 2]. -/
theorem c8_loop_num_equivalence (n b : Nat) (hb : 1 ≤ b) :
    loopNum (n : Int) ((b : Nat) : Int) = ((ceilDiv n b : Nat) : Int) - 1 ∧
    (enqueuedBatches (List.range 5) ((5 : Nat) : Int)).map List.length = [5] ∧
    (enqueuedBatches (List.range 10) ((4 : Nat) : Int)).map List.length = [4, 4, 2] := by
  refine ⟨?_, by decide, by decide⟩
  rw [loopNum_coe, numBatches_eq_ceilDiv n b hb]

/-- Witness for C8 at N = 10, batch_size = 4. -/
theorem c8_loop_num_equivalence_witness :
    loopNum ((10 : Nat) : Int) ((4 : Nat) : Int) = ((ceilDiv 10 4 : Nat) : Int) - 1 :=
  (c8_loop_num_equivalence 10 4 (by decide)).1

/-- C4: evaluation at the failing input N = 0 (with batch_size 512, the
source's default).  Zero batches are produced, the Sentinel is still
enqueued and delivered, and the worker terminates normally on it — but the
extraction then raises `ValueError` at `np.concatenate` on the empty
accumulator instead of returning an empty Result without error. -/
theorem c4_empty_input_concat_error :
    enqueuedBatches ([] : List Nat) (512 : Int) = [] ∧
    enqueueSeq ([] : List Nat) (512 : Int) = [none] ∧
    workerRun (fun bl : List Nat => some (bl.map (fun x => x + 1)))
        (enqueueSeq ([] : List Nat) (512 : Int)) []
      = ([], WorkerExit.sentinelReturn, []) ∧
    extract ([] : List Nat) (512 : Int)
        (fun bl : List Nat => some (bl.map (fun x => x + 1)))
      = ExtractOutcome.concatValueError := by
  decide

/-- Counterexample to C5: for the negative batch_size -1 the extraction is
not detected synchronously and does not fail before queue activity — the
queue is created, the Sentinel is enqueued (so an enqueue does occur), and
the failure happens only later, at the final concatenation. -/
theorem c5_negative_batch_size_counterexample :
    queueCreated (-1) = true ∧
    enqueueSeq ([0, 1, 2] : List Nat) (-1) = [none] ∧
    extract ([0, 1, 2] : List Nat) (-1)
        (fun bl : List Nat => some (bl.map (fun x => x + 1)))
      = ExtractOutcome.concatValueError := by
  decide

/-- C5 as amended: for batch_size ≤ 0 the extraction never returns a
Result, but the failure mode differs by sign.  batch_size = 0 raises
`ZeroDivisionError` at line 63, synchronously, before the queue exists;
a negative batch_size is not detected at all: the queue is created, the
worker is started, no real batch is enqueued (only the Sentinel), and the
extraction fails only at the final concatenation with `ValueError`.  There
is no InvalidConfiguration check in the code. -/
theorem c5_nonpositive_batch_size {α β : Type} (items : List α)
    (g : List α → Option (List β)) (bs : Int) (hbs : bs ≤ 0) :
    (∀ r : List β, extract items bs g ≠ ExtractOutcome.ok r) ∧
    (bs = 0 → queueCreated bs = false ∧
      extract items bs g = ExtractOutcome.zeroDivisionError) ∧
    (bs < 0 → queueCreated bs = true ∧ enqueuedBatches items bs = [] ∧
      extract items bs g = ExtractOutcome.concatValueError) := by
  by_cases h0 : bs = 0
  · subst h0
    refine ⟨?_, fun _ => ⟨rfl, rfl⟩, fun hlt => absurd hlt (by omega)⟩
    intro r hr
    rw [show extract items (0 : Int) g = ExtractOutcome.zeroDivisionError from rfl] at hr
    exact ExtractOutcome.noConfusion hr
  · have hneg : bs < 0 := by omega
    have hB : enqueuedBatches items bs = [] := by
      unfold enqueuedBatches
      have hL := loopNum_neg items.length bs hneg
      rw [show (loopNum (items.length : Int) bs + 1).toNat = 0 from by omega]
      rfl
    have hq : enqueueSeq items bs = [none] := by
      rw [enqueueSeq, hB]
      rfl
    have hx : extract items bs g = ExtractOutcome.concatValueError := by
      unfold extract
      rw [if_neg h0, hq, workerRun_sentinel]
      rfl
    refine ⟨?_, fun h => absurd h h0, fun _ => ⟨?_, hB, hx⟩⟩
    · intro r hr
      rw [hx] at hr
      exact ExtractOutcome.noConfusion hr
    · simp only [queueCreated, bne_iff_ne, ne_eq]
      exact h0

/-- Witness for the amended C5 at batch_size = -2. -/
theorem c5_nonpositive_batch_size_witness :
    queueCreated (-2) = true ∧ enqueuedBatches ([0] : List Nat) (-2) = [] ∧
    extract ([0] : List Nat) (-2) (fun bl : List Nat => some bl)
      = ExtractOutcome.concatValueError :=
  (c5_nonpositive_batch_size ([0] : List Nat) (fun bl => some bl) (-2)
    (by decide)).2.2 (by decide)

/-- C1 as amended: for every nonempty input (N ≥ 1) and every positive
batch_size, when the inference function succeeds on every batch and yields
one result per item in order, the extraction returns a Result whose length
equals the number of input items and whose entry at index i derives from
input item i; order is preserved through enqueue, dequeue, accumulator
append, and the final concatenation.  (At N = 0 the code instead raises at
the final concatenation; see the counterexample.) -/
theorem c1_order_preservation {α β : Type} (items : List α) (b : Nat)
    (f : α → β) (g : List α → Option (List β)) (hb : 1 ≤ b) (hne : items ≠ [])
    (hg : ∀ bl : List α, g bl = some (bl.map f)) :
    extract items ((b : Nat) : Int) g = ExtractOutcome.ok (items.map f) ∧
    (items.map f).length = items.length ∧
    (∀ i : Nat, ∀ hi : i < items.length, ∀ ho : i < (items.map f).length,
      (items.map f).get ⟨i, ho⟩ = f (items.get ⟨i, hi⟩)) := by
  have hbs : ((b : Nat) : Int) ≠ 0 := by
    simp only [ne_eq, Nat.cast_eq_zero]
    omega
  have hBne : enqueuedBatches items ((b : Nat) : Int) ≠ [] := by
    intro hB
    have hL := enqueuedBatches_length items b hb
    rw [hB] at hL
    have hn : 1 ≤ items.length := List.length_pos.mpr hne
    have hKpos := numBatches_pos items.length b hn
    simp at hL
    omega
  refine ⟨?_, List.length_map items f, ?_⟩
  · rw [extract_of_success items ((b : Nat) : Int) g (fun bl => bl.map f) hbs
      (fun x _ => hg x)]
    rw [if_neg (fun hE => hBne (List.isEmpty_iff.mp hE))]
    rw [← List.map_flatten, enqueuedBatches_flatten items b hb]
  · intro i hi ho
    simp only [List.get_eq_getElem, List.getElem_map]

/-- Witness for the amended C1 at items = [5, 6, 7], batch_size = 2. -/
theorem c1_order_preservation_witness :
    extract ([5, 6, 7] : List Nat) ((2 : Nat) : Int)
        (fun bl => some (bl.map (fun x => x + 1)))
      = ExtractOutcome.ok [6, 7, 8] :=
  (c1_order_preservation ([5, 6, 7] : List Nat) 2 (fun x => x + 1)
    (fun bl => some (bl.map (fun x => x + 1))) (by decide) (by decide)
    (fun _ => rfl)).1

/-- Counterexample to C1 as stated: at N = 0 (with the positive batch_size 1
and an everywhere-succeeding inference function) the extraction does not
return a Result of length 0 — the accumulator is empty and the final
`np.concatenate` raises `ValueError` instead. -/
theorem c1_empty_input_counterexample :
    extract ([] : List Nat) (1 : Int) (fun bl => some (bl.map (fun x => x + 1)))
      = ExtractOutcome.concatValueError := by
  decide

/-- C3 as amended: if inference fails on some batch, the worker neither
retries nor skips it and consumes nothing further (the remaining batches and
the Sentinel stay in the queue), but the failure is not surfaced to the
caller: the join returns normally after the daemon worker thread dies, and
the extraction silently returns the concatenation of the results of the
batches that preceded the failing one — a truncated Result — or raises
`ValueError` at the concatenation when the very first batch failed. -/
theorem c3_inference_failure {α β : Type} (items : List α) (b : Nat)
    (g : List α → Option (List β)) (f : List α → List β)
    (pre post : List (List α)) (bad : List α) (hb : 1 ≤ b)
    (hsplit : enqueuedBatches items ((b : Nat) : Int) = pre ++ bad :: post)
    (hpre : ∀ x ∈ pre, g x = some (f x)) (hbad : g bad = none) :
    workerRun g (enqueueSeq items ((b : Nat) : Int)) []
      = (pre.map f, WorkerExit.inferenceCrash, post.map some ++ [none]) ∧
    extract items ((b : Nat) : Int) g
      = if pre.isEmpty then ExtractOutcome.concatValueError
        else ExtractOutcome.ok (pre.map f).flatten := by
  have hbs : ((b : Nat) : Int) ≠ 0 := by
    simp only [ne_eq, Nat.cast_eq_zero]
    omega
  have hw : workerRun g (enqueueSeq items ((b : Nat) : Int)) []
      = (pre.map f, WorkerExit.inferenceCrash, post.map some ++ [none]) := by
    rw [enqueueSeq, hsplit]
    rw [show (pre ++ bad :: post).map some ++ [(none : Option (List α))]
        = pre.map some ++ (some bad :: (post.map some ++ [none])) from by simp]
    rw [workerRun_some g f pre _ [] hpre, workerRun_crash g bad _ _ hbad]
    simp
  refine ⟨hw, ?_⟩
  unfold extract
  rw [if_neg hbs]
  simp only [hw]
  rw [if_neg (by simp : ¬ (WorkerExit.inferenceCrash = WorkerExit.blocked))]
  rw [isEmpty_map]

/-- Witness for the amended C3: 4 items, batch_size 2, inference fails on
the second batch [2, 3]; the worker crashes leaving the Sentinel unconsumed
and the extraction silently returns the truncated Result [0, 1]. -/
theorem c3_inference_failure_witness :
    workerRun (fun bl : List Nat => if bl = [2, 3] then none else some bl)
        (enqueueSeq ([0, 1, 2, 3] : List Nat) ((2 : Nat) : Int)) []
      = ([[0, 1]], WorkerExit.inferenceCrash, [none]) ∧
    extract ([0, 1, 2, 3] : List Nat) ((2 : Nat) : Int)
        (fun bl : List Nat => if bl = [2, 3] then none else some bl)
      = ExtractOutcome.ok [0, 1] := by
  have h := c3_inference_failure ([0, 1, 2, 3] : List Nat) 2
    (fun bl : List Nat => if bl = [2, 3] then none else some bl)
    (fun bl => bl) [[0, 1]] [] [2, 3] (by decide) (by decide) (by decide)
    (by decide)
  exact ⟨h.1, h.2⟩

/-- Counterexample to C3 as stated: with 4 items, batch_size 2, and an
inference function that fails on the second batch [2, 3], the extraction
does not fail — it silently returns the truncated Result [0, 1] of length 2
for an input of length 4. -/
theorem c3_silent_truncation_counterexample :
    extract ([0, 1, 2, 3] : List Nat) (2 : Int)
        (fun bl : List Nat => if bl = [2, 3] then none else some bl)
      = ExtractOutcome.ok [0, 1] ∧
    ([0, 1] : List Nat).length < ([0, 1, 2, 3] : List Nat).length := by
  decide

/-- C6: in every pipeline run exactly one Sentinel is enqueued (the only
`none` in the queue trace) and it is the last element enqueued, after all
real batches; and when inference succeeds on every batch, the worker exits
its loop precisely by observing that Sentinel — its single exit path — and
leaves nothing unconsumed behind it, so it consumes exactly one Sentinel
and processes no element after it. -/
theorem c6_sentinel_protocol {α β : Type} (items : List α) (bs : Int)
    (g : List α → Option (List β)) (f : List α → List β)
    (hg : ∀ bl ∈ enqueuedBatches items bs, g bl = some (f bl)) :
    (enqueueSeq items bs).filter Option.isNone = [none] ∧
    (enqueueSeq items bs).getLast? = some none ∧
    workerRun g (enqueueSeq items bs) []
      = ((enqueuedBatches items bs).map f, WorkerExit.sentinelReturn, []) := by
  refine ⟨?_, ?_, workerRun_pipeline items bs g f hg⟩
  · rw [enqueueSeq, List.filter_append]
    have h1 : ((enqueuedBatches items bs).map some).filter Option.isNone
        = ([] : List (Option (List α))) := by
      induction enqueuedBatches items bs with
      | nil => rfl
      | cons x xs ih => simp [ih]
    rw [h1]
    rfl
  · rw [enqueueSeq, List.getLast?_concat]

/-- Witness for C6 at items = [4, 5], batch_size = 1. -/
theorem c6_sentinel_protocol_witness :
    (enqueueSeq ([4, 5] : List Nat) (1 : Int)).filter Option.isNone = [none] ∧
    (enqueueSeq ([4, 5] : List Nat) (1 : Int)).getLast? = some none ∧
    workerRun (fun bl : List Nat => some bl)
        (enqueueSeq ([4, 5] : List Nat) (1 : Int)) []
      = ((enqueuedBatches ([4, 5] : List Nat) (1 : Int)).map (fun bl => bl),
          WorkerExit.sentinelReturn, []) :=
  c6_sentinel_protocol ([4, 5] : List Nat) (1 : Int) (fun bl => some bl)
    (fun bl => bl) (by decide)

/-- C7: for every finite input and every positive batch_size, when the
inference function succeeds on every batch the worker loop ends by
consuming the Sentinel and the no-timeout join completes: the call does
not hang. -/
theorem c7_termination {α β : Type} (items : List α) (b : Nat)
    (g : List α → Option (List β)) (f : List α → List β) (hb : 1 ≤ b)
    (hg : ∀ bl ∈ enqueuedBatches items ((b : Nat) : Int), g bl = some (f bl)) :
    (workerRun g (enqueueSeq items ((b : Nat) : Int)) []).2.1
      = WorkerExit.sentinelReturn ∧
    extract items ((b : Nat) : Int) g ≠ ExtractOutcome.hang := by
  have hbs : ((b : Nat) : Int) ≠ 0 := by
    simp only [ne_eq, Nat.cast_eq_zero]
    omega
  have hw := workerRun_pipeline items ((b : Nat) : Int) g f hg
  refine ⟨by rw [hw], ?_⟩
  rw [extract_of_success items ((b : Nat) : Int) g f hbs hg]
  by_cases hE : (enqueuedBatches items ((b : Nat) : Int)).isEmpty
  · rw [if_pos hE]
    exact fun h => ExtractOutcome.noConfusion h
  · rw [if_neg hE]
    exact fun h => ExtractOutcome.noConfusion h

/-- Witness for C7 at items = [9], batch_size = 1. -/
theorem c7_termination_witness :
    (workerRun (fun bl : List Nat => some bl)
        (enqueueSeq ([9] : List Nat) ((1 : Nat) : Int)) []).2.1
      = WorkerExit.sentinelReturn ∧
    extract ([9] : List Nat) ((1 : Nat) : Int) (fun bl : List Nat => some bl)
      ≠ ExtractOutcome.hang :=
  c7_termination ([9] : List Nat) 1 (fun bl => some bl) (fun bl => bl)
    (by decide) (by decide)

/-- C9: the queue of line 79 is created without a capacity bound
(`maxsize = 0`), so a push never suspends the producer no matter how many
elements are already queued; in particular the producer pushes every batch
and then the Sentinel without ever waiting for any batch to be processed —
even in the worst case where the worker has consumed nothing, every one of
its pushes is non-blocking. -/
theorem c9_producer_never_blocks {α : Type} (items : List α) (bs : Int)
    (qlen : Nat) :
    putSuspends queueMaxsize qlen = false ∧
    producerSuspensions items bs
      = List.replicate ((enqueuedBatches items bs).length + 1) false := by
  refine ⟨rfl, ?_⟩
  unfold producerSuspensions
  rw [show (fun i : Nat => putSuspends queueMaxsize i) = fun _ : Nat => false from
    funext fun i => rfl]
  rw [List.map_const', List.length_range]
  rw [enqueueSeq, List.length_append, List.length_map]
  rfl

/-- C10: every real batch enqueued is an array slice of the input — a
contiguous sublist — and it enters the queue as a value distinct from the
`None` poison pill, so the worker's `patch_data is None` test distinguishes
the Sentinel from every real batch unambiguously. -/
theorem c10_batches_are_slices {α : Type} (items : List α) (bs : Int)
    (bl : List α) (hmem : bl ∈ enqueuedBatches items bs) :
    (∃ pre post, pre ++ bl ++ post = items) ∧
    Option.isNone (some bl) = false ∧ some bl ≠ (none : Option (List α)) := by
  refine ⟨?_, rfl, by simp⟩
  unfold enqueuedBatches at hmem
  rw [List.mem_map] at hmem
  obtain ⟨i, _, hval⟩ := hmem
  by_cases hc : ((i : Int)) < loopNum (items.length : Int) bs
  · rw [if_pos hc] at hval
    rw [← hval]
    exact pySlice_is_slice items _ _
  · rw [if_neg hc] at hval
    rw [← hval]
    exact pySliceFrom_is_slice items _

/-- Witness for C10: the batch [7, 8] enqueued for items = [7, 8, 9] with
batch_size 2 is a contiguous slice and is not the Sentinel. -/
theorem c10_batches_are_slices_witness :
    (∃ pre post, pre ++ [7, 8] ++ post = ([7, 8, 9] : List Nat)) ∧
    Option.isNone (some ([7, 8] : List Nat)) = false ∧
    some ([7, 8] : List Nat) ≠ (none : Option (List Nat)) :=
  c10_batches_are_slices ([7, 8, 9] : List Nat) (2 : Int) [7, 8] (by decide)

end ImageMatching
